import Mathlib

/-!
Verification development for the DFQI product-catalog client.

The definitions below are shallow embeddings of the data-fetch caching and
deduplication layer (src/src/utils/api.ts), the debounce hook
(src/unnamed/part_000), the infinite-query wiring of the products page
(src/src/pages/ProductsPage.tsx) and the virtualized list renderer
(src/src/components/VirtualizedProductList.tsx).  Time is modelled as a
natural number of milliseconds; the single-threaded event loop is modelled
by processing events in time order.
-/

namespace DFQI

/-! ### Per-key model of cachedRequest (src/src/utils/api.ts, lines 46-70)

`cachedRequest key requestFn cacheDuration` checks `requestCache.has(key)`
and returns the stored promise on a hit; on a miss it invokes `requestFn`,
stores the resulting promise under `key` immediately, and attaches a
`finally` handler that runs `setTimeout(() => requestCache.delete(key),
cacheDuration)` when the promise settles.  Hence, for a fixed key, the map
holds an entry from the moment a producer is invoked until `cacheDuration`
milliseconds after that producer settles.

The model below tracks one key.  A producer is summarized by the time it
takes to settle (`dur`) and the outcome it settles with; `Outcome.err`
models a rejected promise (the `finally` handler runs on rejection too).
A call at time `t` hits the cache exactly when an entry exists whose
scheduled deletion time (settlement time plus ttl) is still in the future.
-/

/-- Settled outcome of a producer promise: fulfilled with a value, or
rejected with an error.  Values are abstracted to naturals. -/
inductive Outcome where
  | ok (v : Nat)
  | err (e : Nat)
deriving DecidableEq, Repr

/-- A producer (the `requestFn` argument): invoked at time `t`, its promise
settles at time `t + dur` with outcome `out`. -/
structure Producer where
  dur : Nat
  out : Outcome
deriving DecidableEq, Repr

/-- The cache entry for one key: when the current producer was invoked
(registration), when its promise settles, and the outcome it settles with.
The `finally` handler deletes the entry at time `settleAt + ttl`. -/
structure Entry where
  registeredAt : Nat
  settleAt : Nat
  out : Outcome
deriving DecidableEq, Repr

/-- What one `cachedRequest` call observes: whether it invoked the producer
(cache miss) and the settled outcome its returned promise delivers. -/
structure CallResult where
  invoked : Bool
  out : Outcome
deriving DecidableEq, Repr

/-- One `cachedRequest` call at time `t` against the current entry state:
a hit (entry present, its deletion at `settleAt + ttl` not yet fired)
returns the stored promise without invoking the producer; a miss invokes
the producer and registers a fresh entry. -/
def stepCall (p : Producer) (ttl : Nat) (st : Option Entry) (t : Nat) :
    Option Entry × CallResult :=
  match st with
  | some e =>
      if t < e.settleAt + ttl then (some e, ⟨false, e.out⟩)
      else (some ⟨t, t + p.dur, p.out⟩, ⟨true, p.out⟩)
  | none => (some ⟨t, t + p.dur, p.out⟩, ⟨true, p.out⟩)

/-- Process a time-ordered list of `cachedRequest` calls for one key,
returning the final entry state and the result each caller observes. -/
def runCalls (p : Producer) (ttl : Nat) :
    Option Entry → List Nat → Option Entry × List CallResult
  | st, [] => (st, [])
  | st, t :: ts =>
      let r := stepCall p ttl st t
      let rest := runCalls p ttl r.1 ts
      (rest.1, r.2 :: rest.2)

theorem runCalls_nil (p : Producer) (ttl : Nat) (st : Option Entry) :
    runCalls p ttl st [] = (st, []) := rfl

theorem runCalls_cons (p : Producer) (ttl : Nat) (st : Option Entry)
    (t : Nat) (ts : List Nat) :
    runCalls p ttl st (t :: ts) =
      ((runCalls p ttl (stepCall p ttl st t).1 ts).1,
       (stepCall p ttl st t).2 :: (runCalls p ttl (stepCall p ttl st t).1 ts).2) := rfl

/-- Every call made while the entry is still present (before its deletion
time `e.settleAt + ttl`) is a hit: the entry is unchanged and each caller
receives the stored outcome without invoking the producer. -/
theorem runCalls_allHit (p : Producer) (ttl : Nat) (e : Entry) (ts : List Nat)
    (h : ∀ t ∈ ts, t < e.settleAt + ttl) :
    runCalls p ttl (some e) ts = (some e, ts.map fun _ => ⟨false, e.out⟩) := by
  induction ts with
  | nil => rfl
  | cons t ts ih =>
      have ht : t < e.settleAt + ttl := h t (by simp)
      rw [runCalls_cons]
      rw [show stepCall p ttl (some e) t = (some e, ⟨false, e.out⟩) by
        simp [stepCall, ht]]
      rw [ih (fun x hx => h x (List.mem_cons_of_mem _ hx))]
      simp

/-- A cold call at `t0` followed by calls that all land before the entry is
deleted (`t0 + p.dur + ttl`): the first call invokes the producer and
registers the entry, every later call joins it. -/
theorem runCalls_fresh (p : Producer) (ttl t0 : Nat) (ts : List Nat)
    (h : ∀ t ∈ ts, t < t0 + p.dur + ttl) :
    runCalls p ttl none (t0 :: ts) =
      (some ⟨t0, t0 + p.dur, p.out⟩,
       CallResult.mk true p.out :: ts.map fun _ => CallResult.mk false p.out) := by
  rw [runCalls_cons]
  rw [show stepCall p ttl none t0 = (some ⟨t0, t0 + p.dur, p.out⟩, ⟨true, p.out⟩) from rfl]
  rw [runCalls_allHit p ttl ⟨t0, t0 + p.dur, p.out⟩ ts h]

/-- Claim C1: for every key and every sequence of calls issued while the
first call's producer is still pending (before `t0 + p.dur`), the producer
is invoked exactly once — by the first call — and all callers receive the
same settled outcome `p.out`. -/
theorem cachedRequest_dedup (p : Producer) (ttl t0 : Nat) (ts : List Nat)
    (h : ∀ t ∈ ts, t < t0 + p.dur) :
    (runCalls p ttl none (t0 :: ts)).2 =
      CallResult.mk true p.out :: ts.map fun _ => CallResult.mk false p.out := by
  rw [runCalls_fresh p ttl t0 ts
    (fun t ht => lt_of_lt_of_le (h t ht) (Nat.le_add_right _ _))]

/-- Witness for C1 at a concrete trace: producer invoked at time 0 settling
at 100; joiners at 30 and 60 receive the same outcome without invoking it. -/
theorem cachedRequest_dedup_witness :
    (runCalls ⟨100, Outcome.ok 7⟩ 5000 none (0 :: [30, 60])).2 =
      CallResult.mk true (Outcome.ok 7) ::
        [30, 60].map fun _ => CallResult.mk false (Outcome.ok 7) :=
  cachedRequest_dedup ⟨100, Outcome.ok 7⟩ 5000 0 [30, 60] (by decide)

/-- Claim C2 counterexample: the producer is invoked at time 0 (registration)
and settles at time 100 with ttl 5000.  The claim says a call at any time
later than registration + ttl = 5000 invokes the producer anew, yet the call
at 5050 is still served from the cache (deletion fires at settlement + ttl
= 5100), so the producer is not invoked anew. -/
theorem cachedRequest_ttl_registration_cex :
    0 + 5000 < 5050 ∧
    (runCalls ⟨100, Outcome.ok 7⟩ 5000 none [0, 5050]).2 =
      [CallResult.mk true (Outcome.ok 7), CallResult.mk false (Outcome.ok 7)] := by
  constructor
  · decide
  · rfl

/-- Claim C2 (amended): the entry registered by a cold call at `t0` is
deleted `ttl` milliseconds after SETTLEMENT, at `t0 + p.dur + ttl`: a second
call strictly before that instant is served from the cache without invoking
the producer, and a second call at or after it invokes the producer anew. -/
theorem cachedRequest_ttl_settlement (p : Producer) (ttl t0 t : Nat) :
    (runCalls p ttl none [t0, t]).2 =
      [CallResult.mk true p.out,
       if t < t0 + p.dur + ttl then CallResult.mk false p.out
       else CallResult.mk true p.out] := by
  by_cases h : t < t0 + p.dur + ttl <;>
    simp [runCalls_cons, runCalls_nil, stepCall, h]

/-- Processing a concatenation of call lists: run the first list, then run
the second from the resulting entry state. -/
theorem runCalls_append (p : Producer) (ttl : Nat) (st : Option Entry)
    (l1 l2 : List Nat) :
    runCalls p ttl st (l1 ++ l2) =
      ((runCalls p ttl (runCalls p ttl st l1).1 l2).1,
       (runCalls p ttl st l1).2 ++ (runCalls p ttl (runCalls p ttl st l1).1 l2).2) := by
  induction l1 generalizing st with
  | nil => simp [runCalls_nil]
  | cons t ts ih =>
      rw [List.cons_append, runCalls_cons, runCalls_cons, ih]
      rfl

/-- Claim C5: a rejecting producer propagates the same rejection to every
caller that joined the pending entry, the entry is removed ttl milliseconds
after the rejection settles, and a call at or after that removal invokes the
producer again instead of receiving the cached failure. -/
theorem cachedRequest_rejection (e ttl t0 dur : Nat) (ts : List Nat)
    (h : ∀ t ∈ ts, t < t0 + dur) (tr : Nat) (hr : t0 + dur + ttl ≤ tr) :
    (runCalls ⟨dur, Outcome.err e⟩ ttl none ((t0 :: ts) ++ [tr])).2 =
      (CallResult.mk true (Outcome.err e) ::
        ts.map fun _ => CallResult.mk false (Outcome.err e))
      ++ [CallResult.mk true (Outcome.err e)] := by
  rw [runCalls_append]
  rw [runCalls_fresh ⟨dur, Outcome.err e⟩ ttl t0 ts
    (fun t ht => lt_of_lt_of_le (h t ht) (Nat.le_add_right _ _))]
  have hstep : stepCall ⟨dur, Outcome.err e⟩ ttl
      (some ⟨t0, t0 + dur, Outcome.err e⟩) tr =
      (some ⟨tr, tr + dur, Outcome.err e⟩, ⟨true, Outcome.err e⟩) := by
    simp [stepCall, Nat.not_lt.mpr hr]
  rw [show (some (Entry.mk t0 (t0 + dur) (Outcome.err e)),
      CallResult.mk true (Outcome.err e) ::
        ts.map fun _ => CallResult.mk false (Outcome.err e)).1 =
      some (Entry.mk t0 (t0 + dur) (Outcome.err e)) from rfl]
  rw [runCalls_cons, hstep]
  simp [runCalls_nil]

/-- Witness for C5 at a concrete trace: producer invoked at 0, rejecting at
100 with ttl 5000; a joiner at 50 receives the rejection, the entry is gone
by 5100, and a call at 5100 invokes the producer again. -/
theorem cachedRequest_rejection_witness :
    (runCalls ⟨100, Outcome.err 4⟩ 5000 none ((0 :: [50]) ++ [5100])).2 =
      (CallResult.mk true (Outcome.err 4) ::
        [50].map fun _ => CallResult.mk false (Outcome.err 4))
      ++ [CallResult.mk true (Outcome.err 4)] :=
  cachedRequest_rejection 4 5000 0 100 [50] (by decide) 5100 (by decide)

/-- Claim C9: after the producer settles at `t0 + p.dur`, the entry stays in
the map for a further ttl milliseconds measured from settlement: every call
in the window from settlement up to (but not including) `t0 + p.dur + ttl`
is served the already-settled outcome without invoking the producer — a
rejected outcome is re-served to later callers for the whole window. -/
theorem cachedRequest_post_settlement (p : Producer) (ttl t0 : Nat)
    (ts : List Nat) (h : ∀ t ∈ ts, t0 + p.dur ≤ t ∧ t < t0 + p.dur + ttl) :
    (runCalls p ttl none (t0 :: ts)).2 =
      CallResult.mk true p.out :: ts.map fun _ => CallResult.mk false p.out := by
  rw [runCalls_fresh p ttl t0 ts (fun t ht => (h t ht).2)]

/-- Witness for C9 at a concrete trace: producer invoked at 0 rejecting at
100 with ttl 5000; calls at 100 and 5099 (both after settlement, before
settlement + ttl) are served the cached rejection without a new producer
invocation. -/
theorem cachedRequest_post_settlement_witness :
    (runCalls ⟨100, Outcome.err 4⟩ 5000 none (0 :: [100, 5099])).2 =
      CallResult.mk true (Outcome.err 4) ::
        [100, 5099].map fun _ => CallResult.mk false (Outcome.err 4) :=
  cachedRequest_post_settlement ⟨100, Outcome.err 4⟩ 5000 0 [100, 5099] (by decide)

/-! ### Cache-key derivation of getProducts (src/src/utils/api.ts, lines 75-97)

`getProducts` builds `new URLSearchParams({ page, limit, ...definedFilters })`
where `definedFilters` keeps (in object insertion order) every filter entry
whose value is neither undefined nor null, stringified.  The cache key is
the literal string `products-` followed by `params.toString()`, which
serializes the pairs in insertion order using
application/x-www-form-urlencoded escaping.  Filter objects are modelled as
association lists in insertion order, with `none` for undefined/null values
and values already stringified. -/

/-- Uppercase hexadecimal digit. -/
def hexDigit (n : Nat) : Char :=
  if n < 10 then Char.ofNat (48 + n) else Char.ofNat (55 + n)

/-- Percent-encode one byte as `%XY` with uppercase hex. -/
def percentEncodeByte (b : Nat) : String :=
  String.mk ['%', hexDigit (b / 16), hexDigit (b % 16)]

/-- UTF-8 byte sequence of a character. -/
def utf8Bytes (c : Char) : List Nat :=
  let n := c.toNat
  if n < 0x80 then [n]
  else if n < 0x800 then [0xC0 + n / 0x40, 0x80 + n % 0x40]
  else if n < 0x10000 then
    [0xE0 + n / 0x1000, 0x80 + (n / 0x40) % 0x40, 0x80 + n % 0x40]
  else
    [0xF0 + n / 0x40000, 0x80 + (n / 0x1000) % 0x40,
     0x80 + (n / 0x40) % 0x40, 0x80 + n % 0x40]

/-- Characters URLSearchParams serialization leaves unescaped. -/
def isFormUnreserved (c : Char) : Bool :=
  c.isAlphanum || c = Char.ofNat 42 || c = Char.ofNat 45 ||
    c = Char.ofNat 46 || c = Char.ofNat 95

/-- application/x-www-form-urlencoded escaping of one character: space
becomes `+`, unreserved characters pass through, everything else is
percent-encoded bytewise. -/
def formEncodeChar (c : Char) : String :=
  if c = ' ' then "+"
  else if isFormUnreserved c then String.singleton c
  else String.join ((utf8Bytes c).map percentEncodeByte)

/-- application/x-www-form-urlencoded escaping of a string. -/
def formEncode (s : String) : String :=
  String.join (s.toList.map formEncodeChar)

/-- `URLSearchParams.toString()`: pairs serialized in order as
`k=v` joined by `&`, both sides form-encoded. -/
def serializeParams (ps : List (String × String)) : String :=
  String.intercalate "&" (ps.map fun kv => formEncode kv.1 ++ "=" ++ formEncode kv.2)

/-- The reduce over `Object.entries(filters)` (api.ts lines 83-88): keep, in
insertion order, the entries whose value is defined. -/
def definedEntries (filters : List (String × Option String)) :
    List (String × String) :=
  filters.filterMap fun kv => kv.2.map fun v => (kv.1, v)

/-- The URLSearchParams pair list of getProducts: `page`, `limit`, then the
defined filter entries in insertion order (api.ts lines 80-89). -/
def productsParams (filters : List (String × Option String))
    (page limit : Nat) : List (String × String) :=
  ("page", toString page) :: ("limit", toString limit) :: definedEntries filters

/-- The getProducts cache key (api.ts line 91). -/
def productsCacheKey (filters : List (String × Option String))
    (page limit : Nat) : String :=
  "products-" ++ serializeParams (productsParams filters page limit)

/-- Claim C3 counterexample: the two filter objects hold identical key/value
pairs in different insertion order (they are permutations of one another),
yet getProducts derives different cache keys, because the serialization
keeps insertion order instead of a canonical order. -/
theorem getProducts_key_order_cex :
    List.Perm [("category", some "books"), ("inStock", some "true")]
      [("inStock", some "true"), ("category", some "books")] ∧
    productsCacheKey [("category", some "books"), ("inStock", some "true")] 1 20 ≠
      productsCacheKey [("inStock", some "true"), ("category", some "books")] 1 20 := by
  constructor
  · exact List.Perm.swap _ _ _
  · decide

/-- Claim C3 (amended): the getProducts cache key is determined by page,
limit and the ordered sequence of defined filter entries: two filter objects
whose defined key/value entries agree in the same insertion order yield the
same key (undefined and null entries are dropped), while identical pairs in
a different insertion order may yield different keys. -/
theorem getProducts_key_same_order (f1 f2 : List (String × Option String))
    (page limit : Nat) (h : definedEntries f1 = definedEntries f2) :
    productsCacheKey f1 page limit = productsCacheKey f2 page limit := by
  unfold productsCacheKey productsParams
  rw [h]

/-- Witness for the amended C3: a filter object with an undefined entry and
one without it share the same defined entries, hence the same cache key. -/
theorem getProducts_key_same_order_witness :
    productsCacheKey [("search", none), ("category", some "books")] 1 20 =
      productsCacheKey [("category", some "books")] 1 20 :=
  getProducts_key_same_order [("search", none), ("category", some "books")]
    [("category", some "books")] 1 20 (by decide)

/-! ### Products-page infinite query (src/src/pages/ProductsPage.tsx, lines 30-53)

ProductsPage drives `useInfiniteQuery(["products", finalFilters], ...)` with
the option `keepPreviousData: true` (line 46, commented "Keep previous data
while loading new filters") and exposes
`products = data?.pages.flatMap(page => page.data) ?? []` (lines 51-53) to
the renderer.  The model below captures the query-state handling of the
library as configured here: a query-key change starts fetching the new
first page while — because `keepPreviousData` is true — the pages of the
previous key stay exposed until the new first page resolves, at which point
they are replaced wholesale.  Pages are tagged with the query key they were
fetched under so provenance is visible in the state. -/

/-- The keepPreviousData option passed at ProductsPage.tsx line 46. -/
def productsPageKeepPreviousData : Bool := true

/-- Infinite-query state for the products page: the current query key, the
key the exposed pages were fetched under (none before any page resolved),
the exposed pages tagged with their key, and whether a first-page fetch for
the current key is in flight. -/
structure InfQueryState (K A : Type) where
  queryKey : K
  dataKey : Option K
  pages : List (K × List A)
  fetching : Bool
deriving DecidableEq, Repr

/-- Events of the infinite query: the logical query changes (new filters,
sort or debounced search term), the first page of the current key resolves,
or a next page of the current key resolves. -/
inductive QEvent (K A : Type) where
  | setQuery (k : K)
  | pageResolved (pg : List A)
  | nextPageResolved (pg : List A)
deriving DecidableEq, Repr

/-- One transition of the query state as configured in ProductsPage: with
`keepPreviousData` true, a key change keeps the previously exposed pages
while fetching; the first page of the new key replaces them wholesale; a
next page appends (only meaningful while the exposed data belongs to the
current key). -/
def qstep {K A : Type} [DecidableEq K] (s : InfQueryState K A) :
    QEvent K A → InfQueryState K A
  | .setQuery k =>
      if productsPageKeepPreviousData then
        { queryKey := k, dataKey := s.dataKey, pages := s.pages, fetching := true }
      else
        { queryKey := k, dataKey := none, pages := [], fetching := true }
  | .pageResolved pg =>
      { queryKey := s.queryKey, dataKey := some s.queryKey,
        pages := [(s.queryKey, pg)], fetching := false }
  | .nextPageResolved pg =>
      if s.dataKey = some s.queryKey then
        { s with pages := s.pages ++ [(s.queryKey, pg)], fetching := false }
      else s

/-- Initial state on mount: first page of key `k` fetching, nothing exposed. -/
def qinit {K A : Type} (k : K) : InfQueryState K A :=
  { queryKey := k, dataKey := none, pages := [], fetching := true }

/-- The query state reached from mount at key `k` after a list of events. -/
def qrun {K A : Type} [DecidableEq K] (k : K) (evs : List (QEvent K A)) :
    InfQueryState K A :=
  evs.foldl qstep (qinit k)

/-- The item collection exposed to the renderer:
`data?.pages.flatMap(page => page.data) ?? []` (ProductsPage.tsx 51-53). -/
def productsOf {K A : Type} (s : InfQueryState K A) : List A :=
  (s.pages.map Prod.snd).flatten

/-- Every exposed page was fetched under the key recorded in `dataKey`. -/
theorem qstep_pages_dataKey {K A : Type} [DecidableEq K]
    (s : InfQueryState K A) (ev : QEvent K A)
    (hs : ∀ p ∈ s.pages, some p.1 = s.dataKey) :
    ∀ p ∈ (qstep s ev).pages, some p.1 = (qstep s ev).dataKey := by
  cases ev with
  | setQuery k => simpa [qstep, productsPageKeepPreviousData] using hs
  | pageResolved pg => simp [qstep]
  | nextPageResolved pg =>
      by_cases h : s.dataKey = some s.queryKey
      · intro p hp
        simp only [qstep, if_pos h, List.mem_append] at hp ⊢
        rcases hp with hp | hp
        · exact hs p hp
        · simp only [List.mem_singleton] at hp
          rw [hp, h]
      · simpa [qstep, if_neg h] using hs

theorem qrun_pages_dataKey {K A : Type} [DecidableEq K] (k : K)
    (evs : List (QEvent K A)) :
    ∀ p ∈ (qrun k evs).pages, some p.1 = (qrun k evs).dataKey := by
  suffices hgen : ∀ (s : InfQueryState K A), (∀ p ∈ s.pages, some p.1 = s.dataKey) →
      ∀ p ∈ (evs.foldl qstep s).pages, some p.1 = (evs.foldl qstep s).dataKey by
    exact hgen (qinit k) (by simp [qinit])
  induction evs with
  | nil => intro s hs; simpa using hs
  | cons ev evs ih =>
      intro s hs
      exact ih (qstep s ev) (qstep_pages_dataKey s ev hs)

/-- Claim C4 counterexample: mount at query key 0, resolve its first page
[1, 2], then change the query to key 1.  In the resulting reachable state
the new query is loading (`fetching = true`) while the items fetched under
the previous query are still exposed to the renderer (`productsOf = [1, 2]`,
fetched under key 0 ≠ current key 1) — the collection is not reset to empty
before the first page of the new query resolves. -/
theorem productsPage_query_change_cex :
    (qrun (K := Nat) (A := Nat) 0
        [QEvent.pageResolved [1, 2], QEvent.setQuery 1]).fetching = true ∧
    productsOf (qrun (K := Nat) (A := Nat) 0
        [QEvent.pageResolved [1, 2], QEvent.setQuery 1]) = [1, 2] ∧
    (qrun (K := Nat) (A := Nat) 0
        [QEvent.pageResolved [1, 2], QEvent.setQuery 1]).dataKey = some 0 ∧
    (qrun (K := Nat) (A := Nat) 0
        [QEvent.pageResolved [1, 2], QEvent.setQuery 1]).queryKey = 1 := by
  decide

/-- Claim C4 (amended): with `keepPreviousData: true` a logical query change
does NOT reset the exposed Item Collection: the previously fetched pages
remain exposed (unchanged) while the new query's first page is loading, and
in every reachable state all exposed pages were fetched under the single
query recorded as the data's key — previous-query items may render alongside
the new query's loading state, but items of two queries never mix. -/
theorem productsPage_keepPreviousData {K A : Type} [DecidableEq K] (k : K)
    (evs : List (QEvent K A)) (p : K × List A)
    (hp : p ∈ (qrun k evs).pages) :
    some p.1 = (qrun k evs).dataKey ∧
    ∀ (s : InfQueryState K A) (k2 : K),
      (qstep s (QEvent.setQuery k2)).pages = s.pages ∧
      (qstep s (QEvent.setQuery k2)).fetching = true :=
  ⟨qrun_pages_dataKey k evs p hp,
   fun s k2 => by simp [qstep, productsPageKeepPreviousData]⟩

/-- Witness for the amended C4 at the concrete trace of the counterexample
state: the page [1, 2] exposed after the query change is tagged with the
previous key 0, and a query change keeps pages while setting fetching. -/
theorem productsPage_keepPreviousData_witness :
    some (0 : Nat) = (qrun (K := Nat) (A := Nat) 0
        [QEvent.pageResolved [1, 2], QEvent.setQuery 1]).dataKey ∧
    ∀ (s : InfQueryState Nat Nat) (k2 : Nat),
      (qstep s (QEvent.setQuery k2)).pages = s.pages ∧
      (qstep s (QEvent.setQuery k2)).fetching = true :=
  productsPage_keepPreviousData 0 [QEvent.pageResolved [1, 2], QEvent.setQuery 1]
    (0, [1, 2]) (by decide)

/-! ### useDebounce (src/unnamed/part_000, lines 7-23)

On every change of `value` (a raw emission at some time carrying some
value), the effect schedules `setDebouncedValue(value)` via
`setTimeout(..., delay)` and its cleanup clears the previously scheduled
timer.  Hence the timer scheduled by the emission at time `t` fires at
`t + delay` except when a newer emission arrives first: it fires exactly when
`t + delay` is strictly before the next emission time (or `t` is the last
emission and the consumer stays mounted). -/

/-- The debounced emissions produced by a time-ordered list of raw
emissions `(t, v)` under delay `delay`: the timer of a non-final emission
fires at `t + delay` only if the next emission arrives strictly later; the
final emission's timer always fires. -/
def debounceFires {A : Type} (delay : Nat) : List (Nat × A) → List (Nat × A)
  | [] => []
  | [(t, v)] => [(t + delay, v)]
  | (t, v) :: e :: rest =>
      (if t + delay < e.1 then [(t + delay, v)] else []) ++
        debounceFires delay (e :: rest)

/-- Claim C6: with delay 300 and raw emissions at times 0, 50, 100 and 300
(values a, b, c, d) and no further input, exactly one debounced emission
occurs, at time 600, carrying the value emitted at time 300; each earlier
pending emission is cancelled by the next raw value. -/
theorem useDebounce_trace (a b c d : Nat) :
    debounceFires 300 [(0, a), (50, b), (100, c), (300, d)] = [(600, d)] := by
  simp [debounceFires]

/-! ### Next-page serialization (src/src/pages/ProductsPage.tsx, lines 66-70)

`loadNextPage` is `if (hasNextPage && !isFetchingNextPage) fetchNextPage()`.
The model tracks the two react-query flags plus `inFlight`, the number of
issued-but-unsettled next-page requests (environment bookkeeping):
`fetchNextPage()` issues a request and raises `isFetchingNextPage`; a
settlement lowers it and updates `hasNextPage`. -/

/-- Next-page fetching state for one list instance. -/
structure NextPageState where
  hasNextPage : Bool
  isFetchingNextPage : Bool
  inFlight : Nat
deriving DecidableEq, Repr

/-- loadNextPage (ProductsPage.tsx lines 66-70): fetch only when there is a
next page and no fetch is already in flight. -/
def loadNextPage (s : NextPageState) : NextPageState :=
  if s.hasNextPage && !s.isFetchingNextPage then
    { hasNextPage := s.hasNextPage, isFetchingNextPage := true,
      inFlight := s.inFlight + 1 }
  else s

/-- Events acting on the next-page state: a scroll threshold crossing calls
loadNextPage; a settlement completes the in-flight request and reports
whether a further page exists. -/
inductive PEvent where
  | threshold
  | settled (hasNext : Bool)
deriving DecidableEq, Repr

def pstep (s : NextPageState) : PEvent → NextPageState
  | .threshold => loadNextPage s
  | .settled h =>
      if s.inFlight = 0 then s
      else { hasNextPage := h, isFetchingNextPage := false,
             inFlight := s.inFlight - 1 }

/-- The state reached from an idle list (no fetch in flight, `hasNextPage`
as given) after a list of events. -/
def prun (init : Bool) (evs : List PEvent) : NextPageState :=
  evs.foldl pstep ⟨init, false, 0⟩

/-- The in-flight count always matches the isFetchingNextPage flag. -/
theorem prun_inFlight_flag (init : Bool) (evs : List PEvent) :
    (prun init evs).inFlight = if (prun init evs).isFetchingNextPage then 1 else 0 := by
  suffices hgen : ∀ s : NextPageState,
      (s.inFlight = if s.isFetchingNextPage then 1 else 0) →
      (evs.foldl pstep s).inFlight =
        if (evs.foldl pstep s).isFetchingNextPage then 1 else 0 by
    exact hgen ⟨init, false, 0⟩ (by simp)
  induction evs with
  | nil => intro s hs; simpa using hs
  | cons ev evs ih =>
      intro s hs
      refine ih (pstep s ev) ?_
      obtain ⟨hn, f, n⟩ := s
      cases ev with
      | threshold =>
          cases hn <;> cases f <;>
            simp [pstep, loadNextPage] at hs ⊢ <;> omega
      | settled h =>
          cases f <;> simp at hs <;> subst hs <;> simp [pstep]

/-- Claim C7: next-page requests are serialized per list instance: whenever
loadNextPage runs while a fetch is in flight or there is no next page, it is
a no-op (the state, in particular the number of issued requests, is
unchanged), and along every event trace at most one next-page request is in
flight at any time. -/
theorem loadNextPage_serialized (init : Bool) (evs : List PEvent) :
    (∀ s : NextPageState,
      (s.isFetchingNextPage || !s.hasNextPage) = true → loadNextPage s = s) ∧
    (prun init evs).inFlight ≤ 1 := by
  constructor
  · intro s hs
    obtain ⟨hn, f, n⟩ := s
    cases hn <;> cases f <;> simp_all [loadNextPage]
  · rw [prun_inFlight_flag]
    split <;> omega

/-- Witness for C7: a call with a fetch in flight is a no-op, and after two
consecutive threshold crossings only one request has been issued. -/
theorem loadNextPage_serialized_witness :
    loadNextPage ⟨true, true, 1⟩ = ⟨true, true, 1⟩ ∧
    (prun true [PEvent.threshold, PEvent.threshold]).inFlight ≤ 1 :=
  ⟨(loadNextPage_serialized true []).1 ⟨true, true, 1⟩ (by decide),
   (loadNextPage_serialized true [PEvent.threshold, PEvent.threshold]).2⟩

/-! ### Virtualized list rows (src/src/components/VirtualizedProductList.tsx)

Lines 44-50: `rowCount = Math.ceil(products.length / itemsPerRow)` and
`itemCount = hasNextPage ? rowCount + 1 : rowCount`.  Lines 87-112
(VirtualizedRow): `startIndex = index * itemsPerRow`,
`endIndex = Math.min(startIndex + itemsPerRow, products.length)`,
`rowProducts = products.slice(startIndex, endIndex)`, and a row with
`startIndex >= products.length` renders the loading placeholder. -/

/-- `Math.ceil(len / ipr)` on naturals (VirtualizedProductList.tsx line 44). -/
def rowCount (len ipr : Nat) : Nat := (len + ipr - 1) / ipr

/-- Total virtualized item count (line 45): one extra trailing row exactly
when `hasNextPage`. -/
def itemCount (len ipr : Nat) (hasNext : Bool) : Nat :=
  if hasNext then rowCount len ipr + 1 else rowCount len ipr

/-- First product index of row `i` (line 93). -/
def rowStart (i ipr : Nat) : Nat := i * ipr

/-- One-past-last product index of row `i` (line 94). -/
def rowEnd (len i ipr : Nat) : Nat := min (rowStart i ipr + ipr) len

/-- `products.slice(startIndex, endIndex)` for row `i` (line 95). -/
def rowProducts {α : Type} (ps : List α) (i ipr : Nat) : List α :=
  (ps.drop (rowStart i ipr)).take (rowEnd ps.length i ipr - rowStart i ipr)

/-- Whether row `i` renders as the loading placeholder (line 98,
`startIndex >= products.length`). -/
def isLoadingRow (len i ipr : Nat) : Bool := decide (len ≤ rowStart i ipr)

/-- `rowCount` is the ceiling of `len / ipr`: the least row count covering
all `len` items. -/
theorem rowCount_ceil (len ipr : Nat) (hipr : 0 < ipr) :
    len ≤ rowCount len ipr * ipr ∧ rowCount len ipr * ipr < len + ipr := by
  unfold rowCount
  have h1 : (len + ipr - 1) / ipr * ipr ≤ len + ipr - 1 :=
    Nat.div_mul_le_self (len + ipr - 1) ipr
  have h2 : len + ipr - 1 < (len + ipr - 1) / ipr * ipr + ipr :=
    Nat.lt_div_mul_add hipr
  generalize (len + ipr - 1) / ipr * ipr = t at h1 h2 ⊢
  omega

/-- Claim C8: for a loaded list of length `L = ps.length` and `ipr > 0`
items per row, the renderer computes `rowCount = ceil(L / ipr)` (the least
count with `L ≤ rowCount * ipr`), uses `rowCount + 1` total rows exactly
when `hasNextPage` is true, renders in row `i` the products at indices
`i * ipr` up to `min((i + 1) * ipr, L)` (elementwise: slot `j` of row `i`
holds product `i * ipr + j`), and renders a row as the loading placeholder
exactly when its start index is at or past `L`. -/
theorem virtualizedList_rows {α : Type} (ps : List α) (ipr i j : Nat)
    (hipr : 0 < ipr) :
    (ps.length ≤ rowCount ps.length ipr * ipr ∧
     rowCount ps.length ipr * ipr < ps.length + ipr) ∧
    (itemCount ps.length ipr true = rowCount ps.length ipr + 1 ∧
     itemCount ps.length ipr false = rowCount ps.length ipr) ∧
    ((rowProducts ps i ipr).length = rowEnd ps.length i ipr - rowStart i ipr ∧
     (i * ipr + j < ps.length → j < ipr →
       (rowProducts ps i ipr)[j]? = ps[i * ipr + j]?)) ∧
    (isLoadingRow ps.length i ipr = true ↔ ps.length ≤ i * ipr) := by
  refine ⟨rowCount_ceil ps.length ipr hipr, ⟨rfl, rfl⟩, ⟨?_, ?_⟩, ?_⟩
  · simp only [rowProducts, List.length_take, List.length_drop, rowEnd, rowStart]
    omega
  · intro h1 h2
    have hj : j < rowEnd ps.length i ipr - rowStart i ipr := by
      simp only [rowEnd, rowStart]
      omega
    simp only [rowProducts]
    rw [List.getElem?_take, if_pos hj, List.getElem?_drop]
    simp [rowStart]
  · simp [isLoadingRow, rowStart]

/-- Witness for C8 at a concrete list: three products, two per row; slot 1
of row 0 holds the product at index 1, and with a next page the total row
count is the ceiling plus one. -/
theorem virtualizedList_rows_witness :
    (rowProducts [10, 20, 30] 0 2)[1]? = some 20 ∧
    itemCount 3 2 true = rowCount 3 2 + 1 :=
  ⟨(virtualizedList_rows [10, 20, 30] 2 0 1 (by decide)).2.2.1.2 (by decide) (by decide),
   (virtualizedList_rows [10, 20, 30] 2 0 1 (by decide)).2.1.1⟩

/-! ### searchProducts (src/src/utils/api.ts, lines 111-124)

`searchProducts(query, limit)` returns `[]` immediately when
`!query.trim()` (the trimmed query is the empty string), before the cache
key is built and before `cachedRequest` runs; otherwise it calls
`cachedRequest` with key `search-QUERY-LIMIT` and a producer hitting
`/products/search?q=ENC(query)&limit=LIMIT`.  The model exposes, besides
the result, the cache map after the call, whether the HTTP client was
invoked, and whether the cache map was read or written at all. -/

/-- Whitespace per the JavaScript `String.prototype.trim` definition
(WhiteSpace and LineTerminator code points). -/
def isJsWhitespace (c : Char) : Bool :=
  c = ' ' || c = Char.ofNat 9 || c = Char.ofNat 10 || c = Char.ofNat 13 ||
  c = Char.ofNat 11 || c = Char.ofNat 12 || c = Char.ofNat 0xA0 ||
  c = Char.ofNat 0xFEFF || c = Char.ofNat 0x2028 || c = Char.ofNat 0x2029

/-- JavaScript `query.trim()`: strip leading and trailing whitespace. -/
def jsTrim (s : String) : String :=
  String.mk (((s.toList.dropWhile isJsWhitespace).reverse.dropWhile
    isJsWhitespace).reverse)

/-- Characters `encodeURIComponent` leaves unescaped. -/
def isUriUnreserved (c : Char) : Bool :=
  c.isAlphanum || c = Char.ofNat 45 || c = Char.ofNat 95 || c = Char.ofNat 46 ||
  c = Char.ofNat 33 || c = Char.ofNat 126 || c = Char.ofNat 42 ||
  c = Char.ofNat 39 || c = Char.ofNat 40 || c = Char.ofNat 41

/-- JavaScript `encodeURIComponent`. -/
def encodeURIComponent (s : String) : String :=
  String.join (s.toList.map fun c =>
    if isUriUnreserved c then String.singleton c
    else String.join ((utf8Bytes c).map percentEncodeByte))

/-- Observable effects of one searchProducts call: the returned value, the
cache map afterwards, whether the HTTP client was invoked, and whether any
cache entry was read or written. -/
structure SearchOutcome (α : Type) where
  result : List α
  cache : List (String × List α)
  httpCalled : Bool
  cacheTouched : Bool
deriving DecidableEq, Repr

/-- Map-level view of cachedRequest (api.ts lines 46-70) as used by
searchProducts: a hit returns the stored result without invoking the
producer; a miss invokes it and registers the entry under the key.  (The
timing of the ttl-scheduled deletion is covered by the timed model above.) -/
def cachedRequestMap {α : Type} (key : String) (requestFn : Unit → List α)
    (cache : List (String × List α)) : SearchOutcome α :=
  match cache.lookup key with
  | some v => ⟨v, cache, false, true⟩
  | none => ⟨requestFn (), (key, requestFn ()) :: cache, true, true⟩

/-- searchProducts (api.ts lines 111-124), with the HTTP client passed as a
function from the request URL to the response body. -/
def searchProducts {α : Type} (q : String) (limit : Nat)
    (http : String → List α) (cache : List (String × List α)) :
    SearchOutcome α :=
  if jsTrim q = "" then ⟨[], cache, false, false⟩
  else
    cachedRequestMap ("search-" ++ q ++ "-" ++ toString limit)
      (fun _ => http ("/products/search?q=" ++ encodeURIComponent q ++
        "&limit=" ++ toString limit))
      cache

/-- Claim C10: for every query that trims to the empty string (empty or
whitespace-only), searchProducts returns the empty array, leaves the cache
map unchanged, does not invoke the HTTP client, and neither reads nor
writes any cache entry. -/
theorem searchProducts_blank {α : Type} (q : String) (limit : Nat)
    (http : String → List α) (cache : List (String × List α))
    (h : jsTrim q = "") :
    searchProducts q limit http cache = ⟨[], cache, false, false⟩ := by
  simp [searchProducts, h]

/-- Witness for C10: a whitespace-only query against a populated cache and
a nonempty HTTP responder yields the empty result with no effects. -/
theorem searchProducts_blank_witness :
    searchProducts "  " 10 (fun _ => [5]) [("search-x-10", [3])] =
      ⟨[], [("search-x-10", [3])], false, false⟩ :=
  searchProducts_blank "  " 10 (fun _ => [5]) [("search-x-10", [3])] (by decide)

end DFQI
